import Mathlib

/-!
Verification development for the phylax backup orchestration engine.

Strings of the Go source are embedded as `List Char`; Go's
`(time.Time, error)` results become `Option DateTime`; fallible calls
return `Except Unit`.  Each definition is a direct translation of the
function of the same name in the source tree.
-/

deriving instance DecidableEq for Except

/-- Calendar instant, the embedding of Go's `time.Time`.  `nanos` holds the
sub-second part, which the `20060102_150405` format drops. -/
structure DateTime where
  year : Nat
  month : Nat
  day : Nat
  hour : Nat
  minute : Nat
  second : Nat
  nanos : Nat
deriving DecidableEq, Repr

/-- Gregorian leap-year rule, as used by Go's `time` package validation. -/
def isLeapYear (y : Nat) : Bool :=
  (y % 4 == 0 && y % 100 != 0) || y % 400 == 0

/-- Number of days of a month, as validated by Go's `time.Parse`. -/
def daysInMonth (y m : Nat) : Nat :=
  match m with
  | 1 => 31
  | 2 => if isLeapYear y then 29 else 28
  | 3 => 31
  | 4 => 30
  | 5 => 31
  | 6 => 30
  | 7 => 31
  | 8 => 31
  | 9 => 30
  | 10 => 31
  | 11 => 30
  | 12 => 31
  | _ => 0

/-- A `DateTime` that denotes a real calendar instant representable by the
`YYYYMMDD_HHMMSS` filename format (four-digit year). -/
def ValidDateTime (t : DateTime) : Prop :=
  1 ≤ t.month ∧ t.month ≤ 12 ∧
  1 ≤ t.day ∧ t.day ≤ daysInMonth t.year t.month ∧
  t.hour ≤ 23 ∧ t.minute ≤ 59 ∧ t.second ≤ 59 ∧ t.year ≤ 9999

instance (t : DateTime) : Decidable (ValidDateTime t) := by
  unfold ValidDateTime; infer_instance

/-- Dropping the sub-second part of an instant. -/
def truncateToSecond (t : DateTime) : DateTime :=
  { t with nanos := 0 }

/-- Embedding of Go's `time.Time.Before`: chronological strict order, which
for calendar fields is the lexicographic order. -/
def DateTime.before (a b : DateTime) : Bool :=
  if a.year < b.year then true else if b.year < a.year then false
  else if a.month < b.month then true else if b.month < a.month then false
  else if a.day < b.day then true else if b.day < a.day then false
  else if a.hour < b.hour then true else if b.hour < a.hour then false
  else if a.minute < b.minute then true else if b.minute < a.minute then false
  else if a.second < b.second then true else if b.second < a.second then false
  else decide (a.nanos < b.nanos)

/-- ASCII digit test, the embedding of the regexp class `\d` (RE2 `\d` is
exactly `[0-9]`). -/
def isDigitChar (c : Char) : Bool :=
  48 ≤ c.toNat && c.toNat ≤ 57

/-- Numeric value of an ASCII digit character. -/
def digitVal (c : Char) : Nat :=
  c.toNat - 48

/-- Two-digit zero-padded decimal rendering, as Go's `Format` produces for
the layout fields `01`, `02`, `15`, `04`, `05` (values below 100). -/
def pad2 (n : Nat) : List Char :=
  [Nat.digitChar (n / 10 % 10), Nat.digitChar (n % 10)]

/-- Four-digit zero-padded decimal rendering, as Go's `Format` produces for
the layout field `2006` (values below 10000). -/
def pad4 (n : Nat) : List Char :=
  [Nat.digitChar (n / 1000 % 10), Nat.digitChar (n / 100 % 10),
   Nat.digitChar (n / 10 % 10), Nat.digitChar (n % 10)]

/-- Embedding of `t.Format("20060102_150405")`. -/
def formatTimestamp (t : DateTime) : List Char :=
  pad4 t.year ++ pad2 t.month ++ pad2 t.day ++ '_' ::
    (pad2 t.hour ++ pad2 t.minute ++ pad2 t.second)

/-- Embedding of `time.Parse("20060102_150405", s)`: exactly fifteen
characters, digits around a literal underscore, with Go's range validation
of month, day (calendar-aware), hour, minute and second. -/
def parseTimestamp (s : List Char) : Option DateTime :=
  match s with
  | [y1, y2, y3, y4, mo1, mo2, d1, d2, u, h1, h2, mi1, mi2, s1, s2] =>
    if u = '_' ∧
        [y1, y2, y3, y4, mo1, mo2, d1, d2, h1, h2, mi1, mi2, s1, s2].all
          isDigitChar = true then
      let year := 1000 * digitVal y1 + 100 * digitVal y2 +
        10 * digitVal y3 + digitVal y4
      let month := 10 * digitVal mo1 + digitVal mo2
      let day := 10 * digitVal d1 + digitVal d2
      let hour := 10 * digitVal h1 + digitVal h2
      let minute := 10 * digitVal mi1 + digitVal mi2
      let second := 10 * digitVal s1 + digitVal s2
      if 1 ≤ month ∧ month ≤ 12 ∧ 1 ≤ day ∧ day ≤ daysInMonth year month ∧
          hour ≤ 23 ∧ minute ≤ 59 ∧ second ≤ 59 then
        some ⟨year, month, day, hour, minute, second, 0⟩
      else none
    else none
  | _ => none

/-- Whether the regexp `(\d{8})_(\d{6})` matches at the head of the list:
eight digits, an underscore, six digits. -/
def matches15 (l : List Char) : Bool :=
  match l with
  | a1 :: a2 :: a3 :: a4 :: a5 :: a6 :: a7 :: a8 :: u ::
      b1 :: b2 :: b3 :: b4 :: b5 :: b6 :: _ =>
    [a1, a2, a3, a4, a5, a6, a7, a8].all isDigitChar &&
      decide (u = '_') && [b1, b2, b3, b4, b5, b6].all isDigitChar
  | _ => false

/-- Leftmost match of `(\d{8})_(\d{6})`, returned as the fifteen-character
window `matches[1] ++ "_" ++ matches[2]` of Go's `FindStringSubmatch`. -/
def findTs : List Char → Option (List Char)
  | [] => none
  | c :: cs =>
    if matches15 (c :: cs) then some (List.take 15 (c :: cs))
    else findTs cs

/-- Embedding of `extractTimestamp` (internal/usecase): find the leftmost
`(\d{8})_(\d{6})` match and `time.Parse` the reassembled window. -/
def extractTimestamp (filename : List Char) : Option DateTime :=
  match findTs filename with
  | some w => parseTimestamp w
  | none => none

/-- Extension table of `generateFilename`: the Go map lookup with the
`".backup"` default for types absent from the map. -/
def extForType (ty : List Char) : List Char :=
  if ty = "mysql".toList then ".sql".toList
  else if ty = "postgresql".toList then ".dump".toList
  else if ty = "mongodb".toList then ".archive".toList
  else ".backup".toList

/-- Embedding of `generateFilename`: `fmt.Sprintf("%s_%s_%s", name, type,
timestamp)` plus the type-selected extension, with the run instant `t`
standing for `time.Now()`. -/
def generateFilename (name ty : List Char) (t : DateTime) : List Char :=
  name ++ "_".toList ++ ty ++ "_".toList ++ formatTimestamp t ++ extForType ty

/-! ## Backup pipeline (internal/usecase backup Execute) -/

/-- Observable side-effect calls made by one pipeline run, in program
order.  Logging calls are not modelled; upload events record the target
identity, the remote name and the call's outcome. -/
inductive Ev where
  | ping
  | genFilename (f : List Char)
  | dump (path : List Char)
  | stat (path : List Char)
  | compress (src dst : List Char)
  | uploadLocal (path name : List Char) (ok : Bool)
  | uploadTarget (target name : List Char) (ok : Bool)
deriving DecidableEq

/-- One enabled upload target: its configured name together with the
outcome its storage capability's `Upload` call would return this run. -/
structure TargetSpec where
  name : List Char
  uploadOk : Bool
deriving DecidableEq

/-- Oracles for the external capabilities one pipeline run consults.
`dumpWrites` (resp. `compressWrites`) records whether the dump tool
(resp. the compressor) created its output file, which can happen even
when the call itself returns an error (partial output). -/
structure BackupEnv where
  pingOk : Bool
  dumpOk : Bool
  dumpWrites : Bool
  statOk : Bool
  compressOk : Bool
  compressWrites : Bool
  localUploadOk : Bool
deriving DecidableEq

/-- The temp working directory, the embedding of
`filepath.Join(os.TempDir(), ...)` prefixing. -/
def tempDir : List Char := "/tmp/".toList

/-- The `".gz"` suffix the compression step appends. -/
def gzExt : List Char := ".gz".toList

/-- File creation in the temp directory (`--result-file` / `os.Create`):
idempotent presence. -/
def writeFile (p : List Char) (fs : List (List Char)) : List (List Char) :=
  if p ∈ fs then fs else p :: fs

/-- Embedding of `os.Remove` with its error discarded, as in
`defer os.Remove(...)`. -/
def removeFile (p : List Char) (fs : List (List Char)) : List (List Char) :=
  fs.erase p

/-- Embedding of the backup use case's `Execute` (and its helpers
`generateFilename`, `compressBackup`, `uploadBackup`, `uploadToTargets`):
ping, filename generation, dump to a temp path, optional compression,
local upload, then the fan-out over `targets` whose per-target failures
are only logged.  `defer os.Remove` is registered for the raw temp file
only after a successful dump and for the compressed file only after a
successful compression, exactly as in the source.  Returns the call's
result, the final temp-directory contents, and the event trace. -/
def BackupUseCase.Execute (name ty : List Char) (compress : Bool)
    (targets : List TargetSpec) (env : BackupEnv) (t : DateTime)
    (fs0 : List (List Char)) :
    Except Unit Unit × List (List Char) × List Ev :=
  if env.pingOk = false then (.error (), fs0, [.ping])
  else
    let filename := generateFilename name ty t
    let tempPath := tempDir ++ filename
    let fs1 := if env.dumpWrites then writeFile tempPath fs0 else fs0
    let evs1 := [Ev.ping, Ev.genFilename filename, Ev.dump tempPath]
    if env.dumpOk = false then (.error (), fs1, evs1)
    else
      -- from here on, os.Remove(tempPath) is deferred on every exit
      if env.statOk = false then
        (.error (), removeFile tempPath fs1, evs1 ++ [Ev.stat tempPath])
      else
        let evs2 := evs1 ++ [Ev.stat tempPath]
        if compress then
          let cFilename := filename ++ gzExt
          let cPath := tempDir ++ cFilename
          let fs2 := if env.compressWrites then writeFile cPath fs1 else fs1
          let evs3 := evs2 ++ [Ev.compress tempPath cPath]
          if env.compressOk = false then
            (.error (), removeFile tempPath fs2, evs3)
          else
            -- os.Remove(cPath) now also deferred (runs before tempPath's)
            if env.localUploadOk = false then
              (.error (), removeFile tempPath (removeFile cPath fs2),
                evs3 ++ [Ev.uploadLocal cPath cFilename false])
            else
              (.ok (), removeFile tempPath (removeFile cPath fs2),
                evs3 ++ [Ev.uploadLocal cPath cFilename true] ++
                  targets.map (fun tg =>
                    Ev.uploadTarget tg.name cFilename tg.uploadOk))
        else
          if env.localUploadOk = false then
            (.error (), removeFile tempPath fs1,
              evs2 ++ [Ev.uploadLocal tempPath filename false])
          else
            (.ok (), removeFile tempPath fs1,
              evs2 ++ [Ev.uploadLocal tempPath filename true] ++
                targets.map (fun tg =>
                  Ev.uploadTarget tg.name filename tg.uploadOk))

/-- Names of the targets whose `Upload` call was attempted in a trace. -/
def attemptedTargets (evs : List Ev) : List (List Char) :=
  evs.filterMap (fun e => match e with
    | .uploadTarget n _ _ => some n
    | _ => none)

/-- Names of the targets whose `Upload` call was attempted and failed
(the failures the run logs per target). -/
def reportedFailed (evs : List Ev) : List (List Char) :=
  evs.filterMap (fun e => match e with
    | .uploadTarget n _ false => some n
    | _ => none)

/-! ## Retention cleaner (internal/usecase/cleanup.go) -/

/-- Observable calls of one cleanup run. -/
inductive CEv where
  | getOldCall (target : List Char)
  | listCall (target : List Char)
  | warn (target f : List Char)
  | del (target f : List Char) (ok : Bool)
deriving DecidableEq

/-- Oracles for one target's storage capability during a cleanup run.
`hasGetOldFiles` is the outcome of the `OldFileGetter` dynamic type
assertion on the storage value. -/
structure StorageOracle where
  hasGetOldFiles : Bool
  getOldFiles : Except Unit (List (List Char))
  listFiles : Except Unit (List (List Char))
  deleteOk : List Char → Bool

/-- An upload target as seen by the cleaner. -/
structure CTarget where
  name : List Char
  storage : StorageOracle

/-- Loop body of the Tier-1 deletion loop of `cleanupTarget`: attempt the
delete, count it when it succeeds, continue regardless. -/
def tier1Step (tname : List Char) (del : List Char → Bool)
    (acc : List CEv × Nat) (f : List Char) : List CEv × Nat :=
  (acc.1 ++ [CEv.del tname f (del f)],
   if del f then acc.2 + 1 else acc.2)

/-- Loop body of the Tier-2 fallback loop of `cleanupTarget`: skip (with a
warning) files whose timestamp does not parse, delete those whose parsed
timestamp is strictly before the cutoff. -/
def tier2Step (cutoff : DateTime) (tname : List Char)
    (del : List Char → Bool) (acc : List CEv × Nat) (f : List Char) :
    List CEv × Nat :=
  match extractTimestamp f with
  | none => (acc.1 ++ [CEv.warn tname f], acc.2)
  | some ts =>
    if ts.before cutoff then tier1Step tname del acc f else acc

/-- Embedding of `cleanupTarget`: if the storage satisfies the
`OldFileGetter` assertion, delete exactly the native query's result
(Tier 1); otherwise list all files and delete by parsed timestamp
(Tier 2).  A listing failure is returned as this target's error. -/
def CleanupUseCase.cleanupTarget (cutoff : DateTime) (t : CTarget) :
    Except Unit Unit × List CEv × Nat :=
  if t.storage.hasGetOldFiles then
    match t.storage.getOldFiles with
    | .error e => (.error e, [CEv.getOldCall t.name], 0)
    | .ok files =>
      let r := files.foldl (tier1Step t.name t.storage.deleteOk)
        ([CEv.getOldCall t.name], 0)
      (.ok (), r.1, r.2)
  else
    match t.storage.listFiles with
    | .error e => (.error e, [CEv.listCall t.name], 0)
    | .ok files =>
      let r := files.foldl (tier2Step cutoff t.name t.storage.deleteOk)
        ([CEv.listCall t.name], 0)
      (.ok (), r.1, r.2)

/-- Oracles for the local storage during a cleanup run: `stat f` is the
file's modification time, `none` when `os.Stat` fails. -/
structure LocalOracle where
  listFiles : Except Unit (List (List Char))
  stat : List Char → Option DateTime
  deleteOk : List Char → Bool

/-- Name tag used for local-storage cleanup events. -/
def localTag : List Char := "local".toList

/-- Loop body of `cleanupLocal`: warn and skip on stat failure, delete
files whose modification time is before the cutoff. -/
def localStep (cutoff : DateTime) (lo : LocalOracle)
    (acc : List CEv × Nat) (f : List Char) : List CEv × Nat :=
  match lo.stat f with
  | none => (acc.1 ++ [CEv.warn localTag f], acc.2)
  | some mt =>
    if mt.before cutoff then
      (acc.1 ++ [CEv.del localTag f (lo.deleteOk f)],
       if lo.deleteOk f then acc.2 + 1 else acc.2)
    else acc

/-- Embedding of `cleanupLocal`. -/
def CleanupUseCase.cleanupLocal (cutoff : DateTime) (lo : LocalOracle) :
    Except Unit Unit × List CEv × Nat :=
  match lo.listFiles with
  | .error e => (.error e, [CEv.listCall localTag], 0)
  | .ok files =>
    let r := files.foldl (localStep cutoff lo) ([CEv.listCall localTag], 0)
    (.ok (), r.1, r.2)

/-- Result of one cleanup run: the value `Execute` returns, the local
outcome, and each target's outcome. -/
structure CleanupRun where
  result : Except Unit Unit
  localOutcome : Except Unit Unit × List CEv × Nat
  targetOutcomes : List (Except Unit Unit × List CEv × Nat)

/-- Embedding of the cleanup use case's `Execute`: local cleanup first
(its error only logged), then every target processed independently
(each target's error only logged), and `nil` returned unconditionally.
The cutoff instant stands for `time.Now().AddDate(0, 0, -retentionDays)`
computed once per run. -/
def CleanupUseCase.Execute (cutoff : DateTime) (lo : LocalOracle)
    (targets : List CTarget) : CleanupRun :=
  { result := .ok ()
    localOutcome := CleanupUseCase.cleanupLocal cutoff lo
    targetOutcomes := targets.map (CleanupUseCase.cleanupTarget cutoff) }

/-- Filenames whose `Delete` call a trace attempts, in order. -/
def deletionAttempts (evs : List CEv) : List (List Char) :=
  evs.filterMap (fun e => match e with
    | .del _ f _ => some f
    | _ => none)

/-- Number of successful `Delete` calls in a trace. -/
def countSuccessfulDels (evs : List CEv) : Nat :=
  evs.countP (fun e => match e with
    | .del _ _ true => true
    | _ => false)

/-- Whether the parsed embedded timestamp of a filename is strictly
before the cutoff (unparseable filenames are not old). -/
def isOldFile (cutoff : DateTime) (f : List Char) : Bool :=
  match extractTimestamp f with
  | some ts => ts.before cutoff
  | none => false

/-- Events the Tier-2 loop produces for one file. -/
def tier2Evs (cutoff : DateTime) (tname : List Char)
    (del : List Char → Bool) (f : List Char) : List CEv :=
  match extractTimestamp f with
  | none => [CEv.warn tname f]
  | some ts =>
    if ts.before cutoff then [CEv.del tname f (del f)] else []

/-- Events the local-cleanup loop produces for one file. -/
def localEvs (cutoff : DateTime) (lo : LocalOracle) (f : List Char) :
    List CEv :=
  match lo.stat f with
  | none => [CEv.warn localTag f]
  | some mt =>
    if mt.before cutoff then [CEv.del localTag f (lo.deleteOk f)] else []

/-! ## Scheduler (internal/infrastructure/scheduler/scheduler.go) -/

/-- Whitespace test for schedule-expression field splitting. -/
def isWS (c : Char) : Bool :=
  c = ' ' || c = '\t'

/-- Splitting an expression into whitespace-separated fields. -/
def splitFields (s : List Char) : List (List Char) :=
  let r := s.foldl
    (fun (acc : List (List Char) × List Char) c =>
      if isWS c then
        (if acc.2 = [] then acc.1 else acc.1 ++ [acc.2], [])
      else (acc.1, acc.2 ++ [c]))
    ([], [])
  if r.2 = [] then r.1 else r.1 ++ [r.2]

/-- Characters a cron field may contain. -/
def cronFieldChar (c : Char) : Bool :=
  isDigitChar c || c = '*' || c = '/' || c = '-' || c = ','

/-- Syntactic validity of one cron field. -/
def cronFieldOk (f : List Char) : Bool :=
  decide (f ≠ []) && f.all cronFieldChar

/-- Modelled from the spec: the schedule-expression validator of the
external cron library behind `Scheduler.AddJob` (robfig/cron, a
dependency whose sources are not part of this repository).  Per the
spec, `AddJob` "validates a 6-field cron-style expression (second,
minute, hour, day-of-month, month, day-of-week)" and "fails with a
descriptive error and registers nothing if the field count or syntax is
invalid"; the per-field grammar, which the spec does not enumerate, is
modelled as a character-level check. -/
def cronValid (expr : List Char) : Bool :=
  decide ((splitFields expr).length = 6) &&
    (splitFields expr).all cronFieldOk

/-- Registration state of the scheduler: the expressions of the jobs
added so far. -/
structure Scheduler where
  jobs : List (List Char)
deriving DecidableEq

/-- Modelled from the spec: `Scheduler.AddJob` delegates validation to
the external cron library (`cron.AddFunc`, not in this repository's
sources) and registers the job only on success. -/
def Scheduler.AddJob (s : Scheduler) (expr : List Char) :
    Except Unit Unit × Scheduler :=
  if cronValid expr then (.ok (), ⟨s.jobs ++ [expr]⟩)
  else (.error (), s)

/-! ## Shipped storage implementations (internal/adapter/storage, domain) -/

/-- The storage backends the application wires as upload targets
(internal/app/app.go: gdrive, s3, telegram, local). -/
inductive ShippedStorage where
  | gdrive
  | s3
  | telegram
  | localFS
deriving DecidableEq

/-- Exported method set of each shipped storage implementation, read off
the adapter sources. -/
def methodNames : ShippedStorage → List (List Char)
  | .gdrive => ["Upload".toList, "List".toList, "Delete".toList,
      "GetOldFiles".toList]
  | .s3 => ["Upload".toList, "List".toList, "Delete".toList,
      "GetOldFiles".toList]
  | .telegram => ["Upload".toList, "List".toList, "Delete".toList,
      "GetOldFiles".toList, "SendNotification".toList]
  | .localFS => ["Upload".toList, "List".toList, "Delete".toList,
      "GetOldFiles".toList, "GetPath".toList]

/-- Method set of the domain `Storage` interface
(internal/domain/storage.go). -/
def domainStorageMethods : List (List Char) :=
  ["Upload".toList, "List".toList, "Delete".toList, "GetOldFiles".toList]

/-- Go's dynamic type assertion `target.Storage.(OldFileGetter)`:
satisfied exactly when the concrete type's method set contains
`GetOldFiles`. -/
def satisfiesOldFileGetter (s : ShippedStorage) : Bool :=
  decide ("GetOldFiles".toList ∈ methodNames s)

/-- A cleanup target backed by one of the shipped storage
implementations: the `OldFileGetter` assertion outcome is determined by
that implementation's method set. -/
def mkShippedTarget (nm : List Char) (s : ShippedStorage)
    (getOld listF : Except Unit (List (List Char)))
    (del : List Char → Bool) : CTarget :=
  ⟨nm, ⟨satisfiesOldFileGetter s, getOld, listF, del⟩⟩

/-- Whether a cleanup trace entered the Tier-2 fallback branch (its first
storage call is `List`). -/
def usedTier2 (evs : List CEv) : Bool :=
  evs.any (fun e => match e with
    | .listCall _ => true
    | _ => false)

theorem isDigitChar_digitChar (n : Nat) (h : n < 10) :
    isDigitChar (Nat.digitChar n) = true := by
  interval_cases n <;> rfl

theorem digitVal_digitChar (n : Nat) (h : n < 10) :
    digitVal (Nat.digitChar n) = n := by
  interval_cases n <;> rfl

theorem isDigitChar_digitChar_mod (n : Nat) :
    isDigitChar (Nat.digitChar (n % 10)) = true :=
  isDigitChar_digitChar _ (Nat.mod_lt _ (by norm_num))

theorem digitVal_digitChar_mod (n : Nat) :
    digitVal (Nat.digitChar (n % 10)) = n % 10 :=
  digitVal_digitChar _ (Nat.mod_lt _ (by norm_num))

theorem daysInMonth_le_31 (y m : Nat) (hl : 1 ≤ m) (hu : m ≤ 12) :
    daysInMonth y m ≤ 31 := by
  interval_cases m <;> simp only [daysInMonth] <;> (try split) <;> omega

theorem parse_format (t : DateTime) (hv : ValidDateTime t) :
    parseTimestamp (formatTimestamp t) = some (truncateToSecond t) := by
  obtain ⟨h1, h2, h3, h4, h5, h6, h7, h8⟩ := hv
  have hd : t.day ≤ 99 := le_trans h4 (le_trans (daysInMonth_le_31 t.year t.month h1 h2) (by norm_num))
  simp only [formatTimestamp, pad4, pad2, List.cons_append, List.nil_append,
    List.append_assoc]
  simp only [parseTimestamp, List.all_cons, List.all_nil,
    isDigitChar_digitChar_mod, Bool.and_true, Bool.true_and,
    digitVal_digitChar_mod]
  rw [if_pos ⟨trivial, trivial⟩]
  have ey : 1000 * (t.year / 1000 % 10) + 100 * (t.year / 100 % 10) +
      10 * (t.year / 10 % 10) + t.year % 10 = t.year := by omega
  have em : 10 * (t.month / 10 % 10) + t.month % 10 = t.month := by omega
  have ed : 10 * (t.day / 10 % 10) + t.day % 10 = t.day := by omega
  have eh : 10 * (t.hour / 10 % 10) + t.hour % 10 = t.hour := by omega
  have emi : 10 * (t.minute / 10 % 10) + t.minute % 10 = t.minute := by omega
  have es : 10 * (t.second / 10 % 10) + t.second % 10 = t.second := by omega
  rw [ey, em, ed, eh, emi, es]
  rw [if_pos ⟨h1, h2, h3, h4, h5, h6, h7⟩]
  rfl

theorem matches15_of_true (l : List Char) (h : matches15 l = true) :
    findTs l = some (l.take 15) := by
  cases l with
  | nil => simp [matches15] at h
  | cons c cs => simp [findTs, h]

theorem matches15_format (t : DateTime) (rest : List Char) :
    matches15 (formatTimestamp t ++ rest) = true := by
  simp [formatTimestamp, pad4, pad2, matches15, isDigitChar_digitChar_mod]

theorem formatTimestamp_length (t : DateTime) :
    (formatTimestamp t).length = 15 := by
  simp [formatTimestamp, pad4, pad2]

theorem take15_format (t : DateTime) (rest : List Char) :
    (formatTimestamp t ++ rest).take 15 = formatTimestamp t := by
  rw [← formatTimestamp_length t, List.take_left]

theorem findTs_append_skip (pre rest : List Char)
    (h : ∀ i, i < pre.length → matches15 ((pre ++ rest).drop i) = false) :
    findTs (pre ++ rest) = findTs rest := by
  induction pre with
  | nil => rfl
  | cons c p ih =>
    have h0 := h 0 (by simp)
    simp only [List.drop_zero] at h0
    rw [List.cons_append, findTs]
    simp only [List.cons_append] at h0
    rw [if_neg (by simp [h0])]
    exact ih (fun i hi => by
      have := h (i + 1) (by simpa using Nat.succ_lt_succ hi)
      simpa using this)

theorem generateFilename_decomp (name ty : List Char) (t : DateTime) :
    generateFilename name ty t =
      (name ++ "_".toList ++ ty ++ "_".toList) ++
        (formatTimestamp t ++ extForType ty) := by
  simp [generateFilename, List.append_assoc]

/-- C1 (amended): for every calendar-valid instant `t` with a four-digit
year and every database name and type such that no `\d{8}_\d{6}` match
of the Tier-2 regexp starts inside the `name_type_` prefix of the
generated filename, extracting the embedded timestamp from the generated
filename returns `t` truncated to whole seconds. -/
theorem extract_generate_roundtrip (name ty : List Char) (t : DateTime)
    (hv : ValidDateTime t)
    (hnm : ∀ i, i < name.length + ty.length + 2 →
      matches15 ((generateFilename name ty t).drop i) = false) :
    extractTimestamp (generateFilename name ty t) =
      some (truncateToSecond t) := by
  have hlen : (name ++ "_".toList ++ ty ++ "_".toList).length =
      name.length + ty.length + 2 := by
    simp [List.length_append]; omega
  rw [extractTimestamp, generateFilename_decomp,
    findTs_append_skip _ _ (by
      rw [hlen]
      intro i hi
      have := hnm i hi
      rwa [generateFilename_decomp] at this),
    matches15_of_true _ (matches15_format t _), take15_format]
  exact parse_format t hv

/-- Witness for C1's amended round-trip theorem at a concrete name, type
and instant with a non-zero sub-second part. -/
theorem extract_generate_roundtrip_witness :
    ValidDateTime ⟨2024, 3, 5, 2, 0, 0, 500⟩ ∧
    extractTimestamp (generateFilename "orders".toList "mysql".toList
        ⟨2024, 3, 5, 2, 0, 0, 500⟩) =
      some (truncateToSecond ⟨2024, 3, 5, 2, 0, 0, 500⟩) :=
  ⟨by decide, extract_generate_roundtrip "orders".toList "mysql".toList
    ⟨2024, 3, 5, 2, 0, 0, 500⟩ (by decide) (by decide)⟩

/-- C1 counterexample: for the database name `x20200101_000000y` (which
contains a digit-and-underscore sequence) the Tier-2 extraction of the
generated filename does not return the generation instant — the leftmost
regexp match falls inside the name and yields 2020-01-01T00:00:00
instead, so the claim as stated is false. -/
theorem extract_generate_mismatch :
    extractTimestamp (generateFilename "x20200101_000000y".toList
        "mysql".toList ⟨2024, 3, 5, 2, 0, 0, 0⟩) ≠
      some (truncateToSecond ⟨2024, 3, 5, 2, 0, 0, 0⟩) := by decide

theorem tier1_foldl (tname : List Char) (del : List Char → Bool) :
    ∀ (files : List (List Char)) (ev0 : List CEv) (n0 : Nat),
      files.foldl (tier1Step tname del) (ev0, n0) =
        (ev0 ++ files.map (fun f => CEv.del tname f (del f)),
         n0 + files.countP del) := by
  intro files
  induction files with
  | nil => intro ev0 n0; simp
  | cons f fs ih =>
    intro ev0 n0
    rw [List.foldl_cons, List.map_cons]
    show List.foldl _ (tier1Step tname del (ev0, n0) f) _ = _
    rw [tier1Step, ih]
    by_cases h : del f <;> simp [h, List.countP_cons, List.append_assoc] <;> omega

theorem tier2_foldl (cutoff : DateTime) (tname : List Char)
    (del : List Char → Bool) :
    ∀ (files : List (List Char)) (ev0 : List CEv) (n0 : Nat),
      files.foldl (tier2Step cutoff tname del) (ev0, n0) =
        (ev0 ++ files.flatMap (tier2Evs cutoff tname del),
         n0 + files.countP (fun f => isOldFile cutoff f && del f)) := by
  intro files
  induction files with
  | nil => intro ev0 n0; simp
  | cons f fs ih =>
    intro ev0 n0
    rw [List.foldl_cons, List.flatMap_cons]
    show List.foldl _ (tier2Step cutoff tname del (ev0, n0) f) _ = _
    rw [tier2Step]
    rcases he : extractTimestamp f with _ | ts
    · rw [ih]
      simp [tier2Evs, he, List.countP_cons, isOldFile, List.append_assoc]
    · rcases hb : ts.before cutoff
      · rw [ih]
        simp [tier2Evs, he, hb, List.countP_cons, isOldFile]
      · rw [tier1Step, ih]
        by_cases h : del f <;>
          simp [tier2Evs, he, hb, h, List.countP_cons, isOldFile,
            List.append_assoc] <;> omega

theorem deletionAttempts_append (l1 l2 : List CEv) :
    deletionAttempts (l1 ++ l2) =
      deletionAttempts l1 ++ deletionAttempts l2 := by
  simp [deletionAttempts]

theorem deletionAttempts_delmap (tname : List Char)
    (del : List Char → Bool) (files : List (List Char)) :
    deletionAttempts (files.map (fun f => CEv.del tname f (del f))) =
      files := by
  induction files with
  | nil => rfl
  | cons f fs ih => simp [deletionAttempts] at ih ⊢; exact ih

theorem deletionAttempts_tier2Evs (cutoff : DateTime) (tname : List Char)
    (del : List Char → Bool) (files : List (List Char)) :
    deletionAttempts (files.flatMap (tier2Evs cutoff tname del)) =
      files.filter (isOldFile cutoff) := by
  induction files with
  | nil => rfl
  | cons f fs ih =>
    rw [List.flatMap_cons, deletionAttempts_append, ih, List.filter_cons]
    rcases he : extractTimestamp f with _ | ts
    · simp [tier2Evs, he, deletionAttempts, isOldFile]
    · rcases hb : ts.before cutoff <;>
        simp [tier2Evs, he, hb, deletionAttempts, isOldFile]

theorem countSuccessfulDels_append (l1 l2 : List CEv) :
    countSuccessfulDels (l1 ++ l2) =
      countSuccessfulDels l1 + countSuccessfulDels l2 := by
  simp [countSuccessfulDels, List.countP_append]

theorem countSuccessfulDels_delmap (tname : List Char)
    (del : List Char → Bool) (files : List (List Char)) :
    countSuccessfulDels (files.map (fun f => CEv.del tname f (del f))) =
      files.countP del := by
  induction files with
  | nil => rfl
  | cons f fs ih =>
    rcases h : del f <;>
      simp [countSuccessfulDels, List.countP_cons, h] at ih ⊢ <;>
      omega

theorem countSuccessfulDels_tier2Evs (cutoff : DateTime) (tname : List Char)
    (del : List Char → Bool) (files : List (List Char)) :
    countSuccessfulDels (files.flatMap (tier2Evs cutoff tname del)) =
      files.countP (fun f => isOldFile cutoff f && del f) := by
  induction files with
  | nil => rfl
  | cons f fs ih =>
    rw [List.flatMap_cons, countSuccessfulDels_append, ih, List.countP_cons]
    rcases he : extractTimestamp f with _ | ts
    · simp [tier2Evs, he, countSuccessfulDels, isOldFile]
    · rcases hb : ts.before cutoff <;>
        rcases h : del f <;>
        simp [tier2Evs, he, hb, h, countSuccessfulDels, isOldFile,
          List.countP_cons] <;>
        omega


theorem deletionAttempts_cons_listCall (n : List Char) (l : List CEv) :
    deletionAttempts (CEv.listCall n :: l) = deletionAttempts l := by
  simp [deletionAttempts]

theorem tier2_events_eq (cutoff : DateTime) (t : CTarget)
    (files : List (List Char))
    (hg : t.storage.hasGetOldFiles = false)
    (hl : t.storage.listFiles = .ok files) :
    (CleanupUseCase.cleanupTarget cutoff t).2.1 =
      CEv.listCall t.name ::
        files.flatMap (tier2Evs cutoff t.name t.storage.deleteOk) := by
  rw [CleanupUseCase.cleanupTarget, if_neg (by simp [hg]), hl]
  simp only [tier2_foldl, List.singleton_append]

theorem tier2_attempts_eq (cutoff : DateTime) (t : CTarget)
    (files : List (List Char))
    (hg : t.storage.hasGetOldFiles = false)
    (hl : t.storage.listFiles = .ok files) :
    deletionAttempts (CleanupUseCase.cleanupTarget cutoff t).2.1 =
      files.filter (isOldFile cutoff) := by
  rw [tier2_events_eq cutoff t files hg hl,
    deletionAttempts_cons_listCall, deletionAttempts_tier2Evs]

/-- C2: when the Tier-2 fallback of the retention cleaner runs (no
native old-files support) and listing succeeds, the files whose deletion
is attempted are exactly those whose embedded timestamp parses and is
strictly before the cutoff; every file whose timestamp cannot be parsed
is warned about and never has its deletion attempted. -/
theorem tier2_marks_exactly_expired (cutoff : DateTime) (t : CTarget)
    (files : List (List Char))
    (hg : t.storage.hasGetOldFiles = false)
    (hl : t.storage.listFiles = .ok files) :
    deletionAttempts (CleanupUseCase.cleanupTarget cutoff t).2.1 =
      files.filter (isOldFile cutoff) ∧
    ∀ f ∈ files, extractTimestamp f = none →
      CEv.warn t.name f ∈ (CleanupUseCase.cleanupTarget cutoff t).2.1 ∧
      f ∉ deletionAttempts (CleanupUseCase.cleanupTarget cutoff t).2.1 := by
  have hct := tier2_events_eq cutoff t files hg hl
  have hda := tier2_attempts_eq cutoff t files hg hl
  refine ⟨hda, fun f hf he => ⟨?_, ?_⟩⟩
  · rw [hct]
    refine List.mem_cons_of_mem _ (List.mem_flatMap.mpr ⟨f, hf, ?_⟩)
    simp [tier2Evs, he]
  · rw [hda]
    intro hmem
    have := (List.mem_filter.mp hmem).2
    simp [isOldFile, he] at this

/-- Witness for C2 on a concrete listing holding one expired backup, one
fresh backup and one unparseable filename. -/
theorem tier2_marks_exactly_expired_witness :
    (⟨false, .ok [], .ok
        ["orders_mysql_20240301_020000.sql.gz".toList,
         "orders_mysql_20240309_020000.sql.gz".toList,
         "notes.txt".toList],
      fun _ => true⟩ : StorageOracle).hasGetOldFiles = false ∧
    deletionAttempts (CleanupUseCase.cleanupTarget
        ⟨2024, 3, 3, 2, 0, 0, 0⟩
        ⟨"gdrive".toList, ⟨false, .ok [], .ok
          ["orders_mysql_20240301_020000.sql.gz".toList,
           "orders_mysql_20240309_020000.sql.gz".toList,
           "notes.txt".toList], fun _ => true⟩⟩).2.1 =
      ["orders_mysql_20240301_020000.sql.gz".toList] := by
  constructor
  · rfl
  · have h := tier2_marks_exactly_expired ⟨2024, 3, 3, 2, 0, 0, 0⟩
      ⟨"gdrive".toList, ⟨false, .ok [], .ok
        ["orders_mysql_20240301_020000.sql.gz".toList,
         "orders_mysql_20240309_020000.sql.gz".toList,
         "notes.txt".toList], fun _ => true⟩⟩
      ["orders_mysql_20240301_020000.sql.gz".toList,
       "orders_mysql_20240309_020000.sql.gz".toList,
       "notes.txt".toList] rfl rfl
    rw [h.1]
    decide

theorem deletionAttempts_cons_getOldCall (n : List Char) (l : List CEv) :
    deletionAttempts (CEv.getOldCall n :: l) = deletionAttempts l := by
  simp [deletionAttempts]

theorem tier1_target_events (cutoff : DateTime) (t : CTarget)
    (files : List (List Char))
    (hg : t.storage.hasGetOldFiles = true)
    (hq : t.storage.getOldFiles = .ok files) :
    (CleanupUseCase.cleanupTarget cutoff t).2.1 =
      CEv.getOldCall t.name ::
        files.map (fun f => CEv.del t.name f (t.storage.deleteOk f)) := by
  rw [CleanupUseCase.cleanupTarget, if_pos (by simp [hg]), hq]
  simp only [tier1_foldl, List.singleton_append]

theorem tier1_attempts_eq (cutoff : DateTime) (t : CTarget)
    (files : List (List Char))
    (hg : t.storage.hasGetOldFiles = true)
    (hq : t.storage.getOldFiles = .ok files) :
    deletionAttempts (CleanupUseCase.cleanupTarget cutoff t).2.1 = files := by
  rw [tier1_target_events cutoff t files hg hq,
    deletionAttempts_cons_getOldCall, deletionAttempts_delmap]

/-- C7: when a target's storage passes the `OldFileGetter` assertion and
the native old-files query succeeds, the retention cleaner attempts
deletion of exactly the filenames the query returned, in order, and of
no other file at that target. -/
theorem tier1_deletes_exactly_native (cutoff : DateTime) (t : CTarget)
    (files : List (List Char))
    (hg : t.storage.hasGetOldFiles = true)
    (hq : t.storage.getOldFiles = .ok files) :
    deletionAttempts (CleanupUseCase.cleanupTarget cutoff t).2.1 = files :=
  tier1_attempts_eq cutoff t files hg hq

/-- Witness for C7 on a concrete native query result, with every delete
failing (deletion is still attempted for each listed file). -/
theorem tier1_deletes_exactly_native_witness :
    (⟨true, .ok ["a_mysql_20240101_000000.sql".toList, "junkname".toList],
        .error (), fun _ => false⟩ : StorageOracle).hasGetOldFiles = true ∧
    deletionAttempts (CleanupUseCase.cleanupTarget ⟨2024, 3, 3, 0, 0, 0, 0⟩
        ⟨"s3".toList, ⟨true,
          .ok ["a_mysql_20240101_000000.sql".toList, "junkname".toList],
          .error (), fun _ => false⟩⟩).2.1 =
      ["a_mysql_20240101_000000.sql".toList, "junkname".toList] := by
  refine ⟨rfl, ?_⟩
  have h := tier1_deletes_exactly_native ⟨2024, 3, 3, 0, 0, 0, 0⟩
    ⟨"s3".toList, ⟨true,
      .ok ["a_mysql_20240101_000000.sql".toList, "junkname".toList],
      .error (), fun _ => false⟩⟩
    ["a_mysql_20240101_000000.sql".toList, "junkname".toList] rfl rfl
  exact h

theorem local_foldl (cutoff : DateTime) (lo : LocalOracle) :
    ∀ (files : List (List Char)) (ev0 : List CEv) (n0 : Nat),
      files.foldl (localStep cutoff lo) (ev0, n0) =
        (ev0 ++ files.flatMap (localEvs cutoff lo),
         n0 + files.countP (fun f =>
           (match lo.stat f with
            | some mt => mt.before cutoff
            | none => false) && lo.deleteOk f)) := by
  intro files
  induction files with
  | nil => intro ev0 n0; simp
  | cons f fs ih =>
    intro ev0 n0
    rw [List.foldl_cons, List.flatMap_cons]
    show List.foldl _ (localStep cutoff lo (ev0, n0) f) _ = _
    rw [localStep]
    rcases he : lo.stat f with _ | mt
    · rw [ih]
      simp [localEvs, he, List.countP_cons, List.append_assoc]
    · rcases hb : mt.before cutoff
      · rw [ih]
        simp [localEvs, he, hb, List.countP_cons]
      · rw [ih]
        by_cases h : lo.deleteOk f <;>
          simp [localEvs, he, hb, h, List.countP_cons,
            List.append_assoc] <;> omega

theorem countSuccessfulDels_cons_listCall (n : List Char) (l : List CEv) :
    countSuccessfulDels (CEv.listCall n :: l) = countSuccessfulDels l := by
  simp [countSuccessfulDels, List.countP_cons]

theorem countSuccessfulDels_cons_getOldCall (n : List Char) (l : List CEv) :
    countSuccessfulDels (CEv.getOldCall n :: l) = countSuccessfulDels l := by
  simp [countSuccessfulDels, List.countP_cons]

theorem countSuccessfulDels_localEvs (cutoff : DateTime) (lo : LocalOracle)
    (files : List (List Char)) :
    countSuccessfulDels (files.flatMap (localEvs cutoff lo)) =
      files.countP (fun f =>
        (match lo.stat f with
         | some mt => mt.before cutoff
         | none => false) && lo.deleteOk f) := by
  induction files with
  | nil => rfl
  | cons f fs ih =>
    rw [List.flatMap_cons, countSuccessfulDels_append, ih, List.countP_cons]
    rcases he : lo.stat f with _ | mt
    · simp [localEvs, he, countSuccessfulDels]
    · rcases hb : mt.before cutoff <;>
        rcases h : lo.deleteOk f <;>
        simp [localEvs, he, hb, h, countSuccessfulDels, List.countP_cons] <;>
        omega

theorem cleanupTarget_count_eq (cutoff : DateTime) (t : CTarget) :
    (CleanupUseCase.cleanupTarget cutoff t).2.2 =
      countSuccessfulDels (CleanupUseCase.cleanupTarget cutoff t).2.1 := by
  rcases t with ⟨nm, ⟨hg, go, lf, del⟩⟩
  cases hg
  · cases lf with
    | error e => rfl
    | ok files =>
      show (CleanupUseCase.cleanupTarget cutoff
        ⟨nm, ⟨false, go, .ok files, del⟩⟩).2.2 = _
      rw [CleanupUseCase.cleanupTarget]
      simp only [if_neg (by simp : ¬((false : Bool) = true))]
      simp only [tier2_foldl, List.singleton_append]
      rw [countSuccessfulDels_cons_listCall, countSuccessfulDels_tier2Evs]
      simp
  · cases go with
    | error e => rfl
    | ok files =>
      show (CleanupUseCase.cleanupTarget cutoff
        ⟨nm, ⟨true, .ok files, lf, del⟩⟩).2.2 = _
      rw [CleanupUseCase.cleanupTarget]
      simp only [eq_self_iff_true, if_true, tier1_foldl,
        List.singleton_append]
      rw [countSuccessfulDels_cons_getOldCall, countSuccessfulDels_delmap]
      simp

theorem cleanupLocal_count_eq (cutoff : DateTime) (lo : LocalOracle) :
    (CleanupUseCase.cleanupLocal cutoff lo).2.2 =
      countSuccessfulDels (CleanupUseCase.cleanupLocal cutoff lo).2.1 := by
  rw [CleanupUseCase.cleanupLocal]
  rcases hl : lo.listFiles with e | files
  · rfl
  · simp only [local_foldl, List.singleton_append]
    rw [countSuccessfulDels_cons_listCall, countSuccessfulDels_localEvs]
    simp

theorem cleanupTarget_attempts_del_independent (cutoff : DateTime)
    (t : CTarget) (g : List Char → Bool) :
    deletionAttempts (CleanupUseCase.cleanupTarget cutoff
      ⟨t.name, ⟨t.storage.hasGetOldFiles, t.storage.getOldFiles,
        t.storage.listFiles, g⟩⟩).2.1 =
    deletionAttempts (CleanupUseCase.cleanupTarget cutoff t).2.1 := by
  rcases t with ⟨nm, ⟨hg, go, lf, del⟩⟩
  cases hg
  · cases lf with
    | error e => rfl
    | ok files =>
      rw [tier2_attempts_eq cutoff _ files rfl rfl,
        tier2_attempts_eq cutoff _ files rfl rfl]
  · cases go with
    | error e => rfl
    | ok files =>
      rw [tier1_attempts_eq cutoff _ files rfl rfl,
        tier1_attempts_eq cutoff _ files rfl rfl]

/-- C8: a retention cleanup run always returns success; each target's
outcome is the independent result of cleaning that target alone, so one
target's listing failure cannot abort the others; each target's (and the
local storage's) reported deleted count equals the number of successful
`Delete` calls in its trace; and the set of attempted deletions of a
target does not depend on the `Delete` outcomes, so one file's deletion
failure never halts the remaining deletions. -/
theorem cleanup_always_completes (cutoff : DateTime) (lo : LocalOracle)
    (targets : List CTarget) :
    (CleanupUseCase.Execute cutoff lo targets).result = .ok () ∧
    (CleanupUseCase.Execute cutoff lo targets).targetOutcomes =
      targets.map (CleanupUseCase.cleanupTarget cutoff) ∧
    (∀ t : CTarget,
      (CleanupUseCase.cleanupTarget cutoff t).2.2 =
        countSuccessfulDels (CleanupUseCase.cleanupTarget cutoff t).2.1) ∧
    (CleanupUseCase.cleanupLocal cutoff lo).2.2 =
      countSuccessfulDels (CleanupUseCase.cleanupLocal cutoff lo).2.1 ∧
    (∀ (t : CTarget) (g : List Char → Bool),
      deletionAttempts (CleanupUseCase.cleanupTarget cutoff
        ⟨t.name, ⟨t.storage.hasGetOldFiles, t.storage.getOldFiles,
          t.storage.listFiles, g⟩⟩).2.1 =
      deletionAttempts (CleanupUseCase.cleanupTarget cutoff t).2.1) :=
  ⟨rfl, rfl, fun t => cleanupTarget_count_eq cutoff t,
    cleanupLocal_count_eq cutoff lo,
    fun t g => cleanupTarget_attempts_del_independent cutoff t g⟩

theorem usedTier2_delmap (tname : List Char) (del : List Char → Bool)
    (files : List (List Char)) :
    usedTier2 (files.map (fun f => CEv.del tname f (del f))) = false := by
  induction files with
  | nil => rfl
  | cons f fs ih =>
    simp only [List.map_cons, usedTier2, List.any_cons] at ih ⊢
    simp [ih]

/-- C10: every shipped storage implementation's method set contains the
whole domain `Storage` interface including `GetOldFiles`, so each one
satisfies the `OldFileGetter` type assertion, and a cleanup of a target
backed by any shipped implementation never enters the Tier-2
list-and-parse fallback branch. -/
theorem shipped_storage_tier1_only :
    (∀ s : ShippedStorage,
      domainStorageMethods ⊆ methodNames s ∧
      satisfiesOldFileGetter s = true) ∧
    ∀ (cutoff : DateTime) (nm : List Char) (s : ShippedStorage)
      (getOld listF : Except Unit (List (List Char)))
      (del : List Char → Bool),
      usedTier2 (CleanupUseCase.cleanupTarget cutoff
        (mkShippedTarget nm s getOld listF del)).2.1 = false := by
  constructor
  · intro s
    cases s <;> exact ⟨by decide, rfl⟩
  · intro cutoff nm s getOld listF del
    have hs : satisfiesOldFileGetter s = true := by cases s <;> rfl
    rw [mkShippedTarget, CleanupUseCase.cleanupTarget]
    simp only [hs, eq_self_iff_true, if_true]
    rcases getOld with e | files
    · rfl
    · simp only [tier1_foldl, List.singleton_append]
      have h := usedTier2_delmap nm del files
      simp only [usedTier2, List.any_cons] at h ⊢
      simp [h]


theorem notMem_erase (x b : List Char) (fs : List (List Char))
    (h : x ∉ fs) : x ∉ fs.erase b :=
  fun hm => h (List.mem_of_mem_erase hm)

theorem notMem_erase_self_of_count (x : List Char) (fs : List (List Char))
    (h : fs.count x ≤ 1) : x ∉ fs.erase x := by
  intro hm
  have hp := List.count_pos_iff.mpr hm
  rw [List.count_erase_self] at hp
  omega

theorem count_writeFile_self (p : List Char) (fs : List (List Char))
    (h : p ∉ fs) : (writeFile p fs).count p = 1 := by
  rw [writeFile, if_neg h, List.count_cons]
  simp [List.count_eq_zero.mpr h]

theorem count_writeFile_other (x p : List Char) (fs : List (List Char))
    (h : p ≠ x) : (writeFile p fs).count x = fs.count x := by
  rw [writeFile]
  split
  · rfl
  · rw [List.count_cons]
    simp [h]

theorem count_erase_le (x b : List Char) (fs : List (List Char)) :
    (fs.erase b).count x ≤ fs.count x := by
  rw [List.count_erase]
  omega

theorem notMem_writeFile (x p : List Char) (fs : List (List Char))
    (hne : x ≠ p) (h : x ∉ fs) : x ∉ writeFile p fs := by
  rw [writeFile]
  split
  · exact h
  · intro hm
    rcases List.mem_cons.mp hm with h1 | h1
    · exact hne h1
    · exact h h1

theorem tempPath_ne_gzPath (f : List Char) :
    tempDir ++ f ≠ tempDir ++ (f ++ gzExt) := by
  intro h
  have := congrArg List.length h
  simp [gzExt, List.length_append] at this

theorem raw_temp_removed (name ty : List Char) (compress : Bool)
    (targets : List TargetSpec) (env : BackupEnv) (t : DateTime)
    (fs0 : List (List Char))
    (h1 : tempDir ++ generateFilename name ty t ∉ fs0)
    (hd : env.dumpOk = true) :
    tempDir ++ generateFilename name ty t ∉
      (BackupUseCase.Execute name ty compress targets env t fs0).2.1 := by
  rcases env with ⟨p, d, dw, st, co, cw, lu⟩
  simp only at hd
  subst hd
  have hne := tempPath_ne_gzPath (generateFilename name ty t)
  have hfs1 : (if dw = true then
      writeFile (tempDir ++ generateFilename name ty t) fs0 else fs0).count
        (tempDir ++ generateFilename name ty t) ≤ 1 := by
    cases dw
    · simp [List.count_eq_zero.mpr h1]
    · simp [count_writeFile_self _ _ h1]
  have hmain : ∀ fs2 : List (List Char),
      fs2.count (tempDir ++ generateFilename name ty t) ≤ 1 →
      tempDir ++ generateFilename name ty t ∉
        removeFile (tempDir ++ generateFilename name ty t) fs2 :=
    fun fs2 hc => notMem_erase_self_of_count _ _ hc
  cases p
  · simp [BackupUseCase.Execute, h1]
  · cases st
    · simp only [BackupUseCase.Execute]
      simp only [Bool.true_eq_false, if_false, if_true, reduceIte]
      exact hmain _ hfs1
    · cases compress
      · cases lu <;>
        · simp only [BackupUseCase.Execute]
          simp only [Bool.true_eq_false, if_false, if_true, reduceIte]
          exact hmain _ hfs1
      · have hfs2 : ∀ (b : Bool),
            ((if b = true then writeFile
                (tempDir ++ (generateFilename name ty t ++ gzExt))
                (if dw = true then
                  writeFile (tempDir ++ generateFilename name ty t) fs0
                  else fs0)
              else (if dw = true then
                writeFile (tempDir ++ generateFilename name ty t) fs0
                else fs0))).count
              (tempDir ++ generateFilename name ty t) ≤ 1 := by
          intro b
          cases b
          · simpa using hfs1
          · simp only [if_true, reduceIte]
            rw [count_writeFile_other _ _ _ (Ne.symm hne)]
            exact hfs1
        cases co
        · simp only [BackupUseCase.Execute]
          simp only [Bool.true_eq_false, if_false, if_true, reduceIte]
          exact hmain _ (hfs2 cw)
        · cases lu <;>
          · simp only [BackupUseCase.Execute]
            simp only [Bool.true_eq_false, if_false, if_true, reduceIte]
            refine hmain _ (le_trans (count_erase_le _ _ _) (hfs2 cw))

theorem gz_temp_removed (name ty : List Char) (compress : Bool)
    (targets : List TargetSpec) (env : BackupEnv) (t : DateTime)
    (fs0 : List (List Char))
    (h2 : tempDir ++ (generateFilename name ty t ++ gzExt) ∉ fs0)
    (hd : env.dumpOk = true)
    (hc : compress = true → env.compressOk = true) :
    tempDir ++ (generateFilename name ty t ++ gzExt) ∉
      (BackupUseCase.Execute name ty compress targets env t fs0).2.1 := by
  rcases env with ⟨p, d, dw, st, co, cw, lu⟩
  simp only at hd hc
  subst hd
  have hne := tempPath_ne_gzPath (generateFilename name ty t)
  have hcp1 : tempDir ++ (generateFilename name ty t ++ gzExt) ∉
      (if dw = true then
        writeFile (tempDir ++ generateFilename name ty t) fs0 else fs0) := by
    cases dw
    · simpa using h2
    · simpa using notMem_writeFile _ _ fs0 (Ne.symm hne) h2
  cases p
  · simp [BackupUseCase.Execute, h2]
  · cases st
    · simp only [BackupUseCase.Execute]
      simp only [Bool.true_eq_false, if_false, if_true, reduceIte]
      exact notMem_erase _ _ _ hcp1
    · cases compress
      · cases lu <;>
        · simp only [BackupUseCase.Execute]
          simp only [Bool.true_eq_false, if_false, if_true, reduceIte]
          exact notMem_erase _ _ _ hcp1
      · have hco := hc rfl
        subst hco
        have hfs2 : ∀ (b : Bool),
            ((if b = true then writeFile
                (tempDir ++ (generateFilename name ty t ++ gzExt))
                (if dw = true then
                  writeFile (tempDir ++ generateFilename name ty t) fs0
                  else fs0)
              else (if dw = true then
                writeFile (tempDir ++ generateFilename name ty t) fs0
                else fs0))).count
              (tempDir ++ (generateFilename name ty t ++ gzExt)) ≤
              1 := by
          intro b
          cases b
          · simpa using Nat.le_of_eq
              ((List.count_eq_zero.mpr hcp1).trans rfl) |>.trans (by omega)
          · simp only [if_true, reduceIte]
            simp [count_writeFile_self _ _ hcp1]
        cases lu <;>
        · simp only [BackupUseCase.Execute]
          simp only [Bool.true_eq_false, if_false, if_true, reduceIte]
          exact notMem_erase _ _ _
            (notMem_erase_self_of_count _ _ (hfs2 cw))

/-- C4 (amended): on every exit path taken after the dump call succeeds
the raw dump temp file does not remain in the temp working directory,
and whenever compression is required to succeed the compressed temp file
does not remain either; removal is not guaranteed when the dump or
compression call itself fails after writing partial output. -/
theorem temp_artifacts_removed (name ty : List Char) (compress : Bool)
    (targets : List TargetSpec) (env : BackupEnv) (t : DateTime)
    (fs0 : List (List Char))
    (h1 : tempDir ++ generateFilename name ty t ∉ fs0)
    (h2 : tempDir ++ (generateFilename name ty t ++ gzExt) ∉ fs0) :
    (env.dumpOk = true →
      tempDir ++ generateFilename name ty t ∉
        (BackupUseCase.Execute name ty compress targets env t fs0).2.1) ∧
    (env.dumpOk = true → (compress = true → env.compressOk = true) →
      tempDir ++ (generateFilename name ty t ++ gzExt) ∉
        (BackupUseCase.Execute name ty compress targets env t fs0).2.1) :=
  ⟨fun hd => raw_temp_removed name ty compress targets env t fs0 h1 hd,
   fun hd hc => gz_temp_removed name ty compress targets env t fs0 h2 hd hc⟩

/-- Witness for C4's amended theorem on a fully successful run. -/
theorem temp_artifacts_removed_witness :
    tempDir ++ generateFilename "orders".toList "mysql".toList
        ⟨2024, 3, 5, 2, 0, 0, 0⟩ ∉
      (BackupUseCase.Execute "orders".toList "mysql".toList true []
        ⟨true, true, true, true, true, true, true⟩
        ⟨2024, 3, 5, 2, 0, 0, 0⟩ []).2.1 ∧
    tempDir ++ (generateFilename "orders".toList "mysql".toList
        ⟨2024, 3, 5, 2, 0, 0, 0⟩ ++ gzExt) ∉
      (BackupUseCase.Execute "orders".toList "mysql".toList true []
        ⟨true, true, true, true, true, true, true⟩
        ⟨2024, 3, 5, 2, 0, 0, 0⟩ []).2.1 :=
  ⟨(temp_artifacts_removed "orders".toList "mysql".toList true []
      ⟨true, true, true, true, true, true, true⟩ ⟨2024, 3, 5, 2, 0, 0, 0⟩ []
      (by decide) (by decide)).1 rfl,
   (temp_artifacts_removed "orders".toList "mysql".toList true []
      ⟨true, true, true, true, true, true, true⟩ ⟨2024, 3, 5, 2, 0, 0, 0⟩ []
      (by decide) (by decide)).2 rfl (fun _ => rfl)⟩

/-- C4 counterexample: when the dump call fails after writing partial
output, `Execute` returns an error and the raw dump temp file remains in
the temp working directory — `os.Remove` is deferred only after the
dump-error check, so the claim as stated is false. -/
theorem failed_dump_leaves_file :
    (BackupUseCase.Execute "orders".toList "mysql".toList true []
      ⟨true, false, true, true, true, true, true⟩
      ⟨2024, 3, 5, 2, 0, 0, 0⟩ []).1 = .error () ∧
    tempDir ++ generateFilename "orders".toList "mysql".toList
        ⟨2024, 3, 5, 2, 0, 0, 0⟩ ∈
      (BackupUseCase.Execute "orders".toList "mysql".toList true []
        ⟨true, false, true, true, true, true, true⟩
        ⟨2024, 3, 5, 2, 0, 0, 0⟩ []).2.1 := by
  decide

/-- C5: when the database ping fails, `Execute` returns an error
immediately: the only event is the ping, the temp directory is
unchanged, and no filename generation, dump, compression or upload
happens. -/
theorem ping_failure_aborts (name ty : List Char) (compress : Bool)
    (targets : List TargetSpec) (env : BackupEnv) (t : DateTime)
    (fs0 : List (List Char)) (hp : env.pingOk = false) :
    BackupUseCase.Execute name ty compress targets env t fs0 =
      (.error (), fs0, [Ev.ping]) := by
  simp [BackupUseCase.Execute, hp]

/-- Witness for C5 on a concrete environment whose ping fails. -/
theorem ping_failure_aborts_witness :
    (⟨false, true, true, true, true, true, true⟩ : BackupEnv).pingOk =
      false ∧
    BackupUseCase.Execute "orders".toList "mysql".toList true
        [⟨"gdrive".toList, true⟩]
        ⟨false, true, true, true, true, true, true⟩
        ⟨2024, 3, 5, 2, 0, 0, 0⟩ [] =
      (.error (), [], [Ev.ping]) :=
  ⟨rfl, ping_failure_aborts "orders".toList "mysql".toList true
    [⟨"gdrive".toList, true⟩] ⟨false, true, true, true, true, true, true⟩
    ⟨2024, 3, 5, 2, 0, 0, 0⟩ [] rfl⟩

theorem attemptedTargets_upload_map (fn : List Char)
    (targets : List TargetSpec) :
    attemptedTargets (targets.map (fun tg =>
      Ev.uploadTarget tg.name fn tg.uploadOk)) =
      targets.map (fun tg => tg.name) := by
  induction targets with
  | nil => rfl
  | cons tg tgs ih => simp [attemptedTargets] at ih ⊢; exact ih

theorem reportedFailed_upload_map (fn : List Char)
    (targets : List TargetSpec) :
    reportedFailed (targets.map (fun tg =>
      Ev.uploadTarget tg.name fn tg.uploadOk)) =
      (targets.filter (fun tg => tg.uploadOk = false)).map
        (fun tg => tg.name) := by
  induction targets with
  | nil => rfl
  | cons tg tgs ih =>
    rcases h : tg.uploadOk <;>
      simp [reportedFailed, List.filter_cons, h] at ih ⊢ <;>
      exact ih

/-- C3: in any pipeline run where connectivity, dump and (when enabled)
compression succeed and a strict non-empty subset of the upload targets'
`Upload` calls fails, `Execute` still returns success, every enabled
target's upload is attempted (no failure cancels or skips a sibling),
and exactly the failing targets are reported failed. -/
theorem upload_failures_isolated (name ty : List Char) (compress : Bool)
    (targets : List TargetSpec) (env : BackupEnv) (t : DateTime)
    (fs0 : List (List Char))
    (hp : env.pingOk = true) (hd : env.dumpOk = true)
    (hc : compress = true → env.compressOk = true)
    (hfail : ∃ n f, Ev.uploadTarget n f false ∈
      (BackupUseCase.Execute name ty compress targets env t fs0).2.2)
    (hsucc : ∃ n f, Ev.uploadTarget n f true ∈
      (BackupUseCase.Execute name ty compress targets env t fs0).2.2) :
    (BackupUseCase.Execute name ty compress targets env t fs0).1 =
      .ok () ∧
    attemptedTargets
        (BackupUseCase.Execute name ty compress targets env t fs0).2.2 =
      targets.map (fun tg => tg.name) ∧
    reportedFailed
        (BackupUseCase.Execute name ty compress targets env t fs0).2.2 =
      (targets.filter (fun tg => tg.uploadOk = false)).map
        (fun tg => tg.name) := by
  rcases env with ⟨p, d, dw, st, co, cw, lu⟩
  simp only at hp hd hc
  subst hp
  subst hd
  cases st
  · exfalso
    rcases hfail with ⟨n, f, hm⟩
    simp [BackupUseCase.Execute] at hm
  · cases compress
    · cases lu
      · exfalso
        rcases hfail with ⟨n, f, hm⟩
        simp [BackupUseCase.Execute] at hm
      · refine ⟨by simp [BackupUseCase.Execute], ?_, ?_⟩
        · simp only [BackupUseCase.Execute]
          simp only [Bool.true_eq_false, Bool.false_eq_true, if_false, if_true, reduceIte]
          rw [attemptedTargets, List.filterMap_append]
          rw [← attemptedTargets, ← attemptedTargets,
            attemptedTargets_upload_map]
          rfl
        · simp only [BackupUseCase.Execute]
          simp only [Bool.true_eq_false, Bool.false_eq_true, if_false, if_true, reduceIte]
          rw [reportedFailed, List.filterMap_append]
          rw [← reportedFailed, ← reportedFailed,
            reportedFailed_upload_map]
          rfl
    · have hco := hc rfl
      subst hco
      cases lu
      · exfalso
        rcases hfail with ⟨n, f, hm⟩
        simp [BackupUseCase.Execute] at hm
      · refine ⟨by simp [BackupUseCase.Execute], ?_, ?_⟩
        · simp only [BackupUseCase.Execute]
          simp only [Bool.true_eq_false, Bool.false_eq_true, if_false, if_true, reduceIte]
          rw [attemptedTargets, List.filterMap_append]
          rw [← attemptedTargets, ← attemptedTargets,
            attemptedTargets_upload_map]
          rfl
        · simp only [BackupUseCase.Execute]
          simp only [Bool.true_eq_false, Bool.false_eq_true, if_false, if_true, reduceIte]
          rw [reportedFailed, List.filterMap_append]
          rw [← reportedFailed, ← reportedFailed,
            reportedFailed_upload_map]
          rfl

/-- Witness for C3 with two targets of which exactly one fails. -/
theorem upload_failures_isolated_witness :
    (BackupUseCase.Execute "orders".toList "mysql".toList true
        [⟨"gdrive".toList, true⟩, ⟨"telegram".toList, false⟩]
        ⟨true, true, true, true, true, true, true⟩
        ⟨2024, 3, 5, 2, 0, 0, 0⟩ []).1 = .ok () ∧
    attemptedTargets (BackupUseCase.Execute "orders".toList "mysql".toList
        true [⟨"gdrive".toList, true⟩, ⟨"telegram".toList, false⟩]
        ⟨true, true, true, true, true, true, true⟩
        ⟨2024, 3, 5, 2, 0, 0, 0⟩ []).2.2 =
      ["gdrive".toList, "telegram".toList] ∧
    reportedFailed (BackupUseCase.Execute "orders".toList "mysql".toList
        true [⟨"gdrive".toList, true⟩, ⟨"telegram".toList, false⟩]
        ⟨true, true, true, true, true, true, true⟩
        ⟨2024, 3, 5, 2, 0, 0, 0⟩ []).2.2 =
      ["telegram".toList] := by
  have h := upload_failures_isolated "orders".toList "mysql".toList true
    [⟨"gdrive".toList, true⟩, ⟨"telegram".toList, false⟩]
    ⟨true, true, true, true, true, true, true⟩
    ⟨2024, 3, 5, 2, 0, 0, 0⟩ [] rfl rfl (fun _ => rfl)
    ⟨"telegram".toList,
      generateFilename "orders".toList "mysql".toList
        ⟨2024, 3, 5, 2, 0, 0, 0⟩ ++ gzExt, by decide⟩
    ⟨"gdrive".toList,
      generateFilename "orders".toList "mysql".toList
        ⟨2024, 3, 5, 2, 0, 0, 0⟩ ++ gzExt, by decide⟩
  exact ⟨h.1, h.2.1, h.2.2⟩

/-- C9: the filename generated for database `orders` of type `mysql` at
2024-03-05T02:00:00 is exactly `orders_mysql_20240305_020000.sql`; with
compression the uploaded name gains `.gz`; and the extension is `.sql`
for mysql, `.dump` for postgresql, `.archive` for mongodb and `.backup`
for every other type. -/
theorem filename_scenario :
    generateFilename "orders".toList "mysql".toList
        ⟨2024, 3, 5, 2, 0, 0, 0⟩ =
      "orders_mysql_20240305_020000.sql".toList ∧
    generateFilename "orders".toList "mysql".toList
        ⟨2024, 3, 5, 2, 0, 0, 0⟩ ++ gzExt =
      "orders_mysql_20240305_020000.sql.gz".toList ∧
    Ev.uploadLocal
        (tempDir ++ "orders_mysql_20240305_020000.sql.gz".toList)
        "orders_mysql_20240305_020000.sql.gz".toList true ∈
      (BackupUseCase.Execute "orders".toList "mysql".toList true []
        ⟨true, true, true, true, true, true, true⟩
        ⟨2024, 3, 5, 2, 0, 0, 0⟩ []).2.2 ∧
    extForType "mysql".toList = ".sql".toList ∧
    extForType "postgresql".toList = ".dump".toList ∧
    extForType "mongodb".toList = ".archive".toList ∧
    ∀ ty : List Char, ty ≠ "mysql".toList → ty ≠ "postgresql".toList →
      ty ≠ "mongodb".toList → extForType ty = ".backup".toList := by
  refine ⟨by decide, by decide, by decide, rfl, rfl, rfl, ?_⟩
  intro ty hm hp hg
  rw [extForType, if_neg hm, if_neg hp, if_neg hg]

/-- Witness for C9's unknown-type clause at the concrete type
`oracle`. -/
theorem filename_scenario_witness :
    extForType "oracle".toList = ".backup".toList :=
  filename_scenario.2.2.2.2.2.2 "oracle".toList (by decide) (by decide)
    (by decide)

/-- C6: `Scheduler.AddJob` succeeds and registers the job for every
syntactically valid 6-field cron expression, and returns an error while
registering nothing for every other expression (validator modelled from
the spec, as the cron library is an external dependency). -/
theorem addJob_registers_exactly_valid (s : Scheduler) (expr : List Char) :
    (cronValid expr = true →
      Scheduler.AddJob s expr = (.ok (), ⟨s.jobs ++ [expr]⟩)) ∧
    (cronValid expr = false →
      Scheduler.AddJob s expr = (.error (), s)) := by
  constructor <;> intro h <;> simp [Scheduler.AddJob, h]

/-- Witness for C6 on a valid 6-field expression and an invalid one. -/
theorem addJob_registers_exactly_valid_witness :
    cronValid "* * * * * *".toList = true ∧
    Scheduler.AddJob ⟨[]⟩ "* * * * * *".toList =
      (.ok (), ⟨["* * * * * *".toList]⟩) ∧
    cronValid "invalid spec".toList = false ∧
    Scheduler.AddJob ⟨[]⟩ "invalid spec".toList = (.error (), ⟨[]⟩) :=
  ⟨by decide,
   (addJob_registers_exactly_valid ⟨[]⟩ "* * * * * *".toList).1 (by decide),
   by decide,
   (addJob_registers_exactly_valid ⟨[]⟩ "invalid spec".toList).2 (by decide)⟩
